import Mathlib

set_option maxRecDepth 2200
set_option exponentiation.threshold 1300

/-!
Shallow embedding of `apaxa-io/timehelper`'s `Interval` type (src/interval.go)
and the operations reachable from the spec claims.

Modelling conventions:
* Go `int32`/`int64` fields and intermediates are `ℤ` together with explicit
  two's-complement wraparound (`wrap32`, `wrap64`) applied exactly where the
  Go arithmetic can wrap.
* Go `float64` values are rationals that are exactly representable in IEEE-754
  binary64; every Go floating-point operation `x ⊕ y` is embedded as
  `flRound (x ⊕ℚ y)` where `flRound` is IEEE round-to-nearest, ties-to-even,
  at 53 significand bits with gradual underflow at `2^(-1074)` and overflow to
  a `2^1024` stand-in value (representing ±Inf; no claim reaches it).
-/

/-- Digit characters `0`-`9`. -/
def isDigitCh (c : Char) : Bool := '0' ≤ c && c ≤ '9'

/-- Fuel-driven binary logarithm on `ℕ` (structural recursion so that the
kernel can evaluate it inside `decide`). `natLog2F fuel n = ⌊log₂ n⌋` whenever
`n ≤ fuel` and `1 ≤ n`. -/
def natLog2F : ℕ → ℕ → ℕ
  | 0, _ => 0
  | fuel + 1, n => if n ≤ 1 then 0 else natLog2F fuel (n / 2) + 1

/-- `⌊log₂ n⌋` for `n ≥ 1` (and `0` at `0`). -/
def natLog2 (n : ℕ) : ℕ := natLog2F n n

theorem natLog2F_spec : ∀ (fuel n : ℕ), n ≤ fuel → 1 ≤ n →
    2 ^ natLog2F fuel n ≤ n ∧ n < 2 ^ (natLog2F fuel n + 1) := by
  intro fuel
  induction fuel with
  | zero => intro n h1 h2; omega
  | succ f ih =>
    intro n hle hpos
    by_cases hn : n ≤ 1
    · have : n = 1 := by omega
      subst this
      simp [natLog2F]
    · have h2 : 2 ≤ n := by omega
      have hhalf : 1 ≤ n / 2 := Nat.one_le_div_iff (by omega) |>.mpr h2
      have hfe : n / 2 ≤ f := by omega
      obtain ⟨hl, hr⟩ := ih (n / 2) hfe hhalf
      constructor
      · have : 2 ^ natLog2F f (n / 2) * 2 ≤ n / 2 * 2 := by omega
        have h2n : n / 2 * 2 ≤ n := Nat.div_mul_le_self n 2
        simp only [natLog2F, if_neg hn]
        calc 2 ^ (natLog2F f (n / 2) + 1) = 2 ^ natLog2F f (n / 2) * 2 := by ring
        _ ≤ n := by omega
      · simp only [natLog2F, if_neg hn]
        have : n < (n / 2 + 1) * 2 := by omega
        calc n < (n / 2 + 1) * 2 := this
        _ ≤ 2 ^ (natLog2F f (n / 2) + 1) * 2 := by
              have := hr; omega
        _ = 2 ^ (natLog2F f (n / 2) + 1 + 1) := by ring

theorem natLog2_spec (n : ℕ) (h : 1 ≤ n) :
    2 ^ natLog2 n ≤ n ∧ n < 2 ^ (natLog2 n + 1) :=
  natLog2F_spec n n le_rfl h

theorem ratFloor_eq (x : ℚ) : x.floor = ⌊x⌋ :=
  (Rat.floor_def' x).trans Rat.floor_def.symm

/-- `2 ^ u` on `ℚ` for `u : ℤ`, via `Nat` powers (kernel-evaluable, unlike
the generic `zpow`). -/
def pow2z (u : ℤ) : ℚ :=
  if 0 ≤ u then ((2 ^ u.toNat : ℕ) : ℚ) else 1 / ((2 ^ (-u).toNat : ℕ) : ℚ)

theorem pow2z_eq (u : ℤ) : pow2z u = (2:ℚ) ^ u := by
  unfold pow2z
  split
  · rename_i h
    rw [show ((2 ^ u.toNat : ℕ) : ℚ) = (2:ℚ) ^ (u.toNat : ℤ) by
        rw [zpow_natCast]; push_cast; ring,
      Int.toNat_of_nonneg h]
  · rename_i h
    rw [one_div,
      show ((2 ^ (-u).toNat : ℕ) : ℚ) = (2:ℚ) ^ ((-u).toNat : ℤ) by
        rw [zpow_natCast]; push_cast; ring,
      Int.toNat_of_nonneg (by omega : (0:ℤ) ≤ -u), ← zpow_neg, neg_neg]

/-- Round a rational to the nearest integer, ties to even (the IEEE-754
default rounding used by all Go float64 operations). -/
def rte (x : ℚ) : ℤ :=
  if x - x.floor < 1/2 then x.floor
  else if 1/2 < x - x.floor then x.floor + 1
  else if x.floor % 2 = 0 then x.floor else x.floor + 1

theorem rte_def (x : ℚ) : rte x =
    if x - ⌊x⌋ < 1/2 then ⌊x⌋
    else if 1/2 < x - ⌊x⌋ then ⌊x⌋ + 1
    else if Even ⌊x⌋ then ⌊x⌋ else ⌊x⌋ + 1 := by
  unfold rte
  rw [ratFloor_eq]
  by_cases h : (⌊x⌋ % 2 : ℤ) = 0
  · simp [h, Int.even_iff]
  · simp [h, Int.even_iff]

theorem rte_err (x : ℚ) : |(rte x : ℚ) - x| ≤ 1/2 := by
  rw [rte_def]
  have h0 : (0:ℚ) ≤ x - ⌊x⌋ := by
    have := Int.floor_le x; linarith
  have h1 : x - ⌊x⌋ < 1 := by
    have := Int.lt_floor_add_one x; linarith
  split
  · rename_i h; rw [abs_sub_comm, abs_of_nonneg (by linarith)]; linarith
  · split
    · rename_i h h'
      rw [abs_of_nonneg (by push_cast; linarith)]
      push_cast
      linarith
    · split <;> rename_i h h' _
      · rw [abs_sub_comm, abs_of_nonneg (by linarith)]; linarith
      · rw [abs_of_nonneg (by push_cast; linarith)]
        push_cast
        linarith

theorem rte_intCast (k : ℤ) : rte (k : ℚ) = k := by
  rw [rte_def, Int.floor_intCast]
  simp

/-- `⌊log₂ q⌋` for a positive rational, from the logs of numerator and
denominator plus one comparison. -/
def ratLog2 (q : ℚ) : ℤ :=
  if pow2z ((natLog2 q.num.toNat : ℤ) - natLog2 q.den) ≤ q
  then (natLog2 q.num.toNat : ℤ) - natLog2 q.den
  else (natLog2 q.num.toNat : ℤ) - natLog2 q.den - 1

theorem ratLog2_aux (n d : ℕ) (hn : 1 ≤ n) (hd : 1 ≤ d) :
    (2:ℚ) ^ ((natLog2 n : ℤ) - natLog2 d - 1) < (n:ℚ) / d ∧
      (n:ℚ) / d < 2 ^ ((natLog2 n : ℤ) - natLog2 d + 1) := by
  obtain ⟨hcl, hcr⟩ := natLog2_spec n hn
  obtain ⟨hfl, hfr⟩ := natLog2_spec d hd
  have hdq : (0:ℚ) < (d : ℚ) := by exact_mod_cast hd
  have h1 : (2:ℚ) ^ ((natLog2 n : ℤ)) ≤ (n : ℚ) := by
    rw [zpow_natCast]; exact_mod_cast hcl
  have h1r : (n : ℚ) < 2 ^ ((natLog2 n : ℤ)) * 2 := by
    have h := hcr
    rw [zpow_natCast]
    calc (n : ℚ) < ((2 ^ (natLog2 n + 1) : ℕ) : ℚ) := by exact_mod_cast h
    _ = 2 ^ natLog2 n * 2 := by push_cast; ring
  have h2 : (2:ℚ) ^ ((natLog2 d : ℤ)) ≤ (d : ℚ) := by
    rw [zpow_natCast]; exact_mod_cast hfl
  have h2r : (d : ℚ) < 2 ^ ((natLog2 d : ℤ)) * 2 := by
    have h := hfr
    rw [zpow_natCast]
    calc (d : ℚ) < ((2 ^ (natLog2 d + 1) : ℕ) : ℚ) := by exact_mod_cast h
    _ = 2 ^ natLog2 d * 2 := by push_cast; ring
  constructor
  · rw [zpow_sub₀ (by norm_num), zpow_sub₀ (by norm_num), zpow_one, div_div,
      div_lt_div_iff₀ (by positivity) hdq]
    calc (2:ℚ) ^ ((natLog2 n : ℤ)) * (d : ℚ)
        < 2 ^ ((natLog2 n : ℤ)) * (2 ^ ((natLog2 d : ℤ)) * 2) :=
          mul_lt_mul_of_pos_left h2r (by positivity)
    _ ≤ (n : ℚ) * (2 ^ ((natLog2 d : ℤ)) * 2) :=
          mul_le_mul_of_nonneg_right h1 (by positivity)
  · rw [div_lt_iff₀ hdq]
    calc (n : ℚ) < 2 ^ ((natLog2 n : ℤ)) * 2 := h1r
    _ = 2 ^ ((natLog2 n : ℤ) - natLog2 d + 1) * 2 ^ ((natLog2 d : ℤ)) := by
          rw [← zpow_add₀ (by norm_num : (2:ℚ) ≠ 0),
            show (natLog2 n : ℤ) - natLog2 d + 1 + natLog2 d = natLog2 n + 1 by ring,
            zpow_add_one₀ (by norm_num : (2:ℚ) ≠ 0)]
    _ ≤ 2 ^ ((natLog2 n : ℤ) - natLog2 d + 1) * (d : ℚ) :=
          mul_le_mul_of_nonneg_left h2 (by positivity)

theorem ratLog2_spec (q : ℚ) (hq : 0 < q) :
    (2:ℚ) ^ ratLog2 q ≤ q ∧ q < 2 ^ (ratLog2 q + 1) := by
  have hnum : 0 < q.num := Rat.num_pos.mpr hq
  have hn1 : 1 ≤ q.num.toNat := by omega
  have hd1 : 1 ≤ q.den := q.pos
  have hqnum : ((q.num.toNat : ℕ) : ℚ) = (q.num : ℚ) := by
    exact_mod_cast congrArg (fun z : ℤ => (z : ℚ)) (Int.toNat_of_nonneg hnum.le)
  have hq_eq : (q.num.toNat : ℚ) / (q.den : ℚ) = q := by
    rw [hqnum]; exact Rat.num_div_den q
  obtain ⟨hql, hqr⟩ := ratLog2_aux q.num.toNat q.den hn1 hd1
  rw [hq_eq] at hql hqr
  unfold ratLog2
  split
  · rename_i h
    rw [pow2z_eq] at h
    exact ⟨h, hqr⟩
  · rename_i h
    rw [pow2z_eq] at h
    push_neg at h
    refine ⟨le_of_lt hql, ?_⟩
    simpa using h

/-- `max` on `ℤ`, written with an explicit `if` so the kernel can evaluate it. -/
def maxI (x y : ℤ) : ℤ := if x ≤ y then y else x

theorem maxI_eq (x y : ℤ) : maxI x y = max x y := by
  unfold maxI
  split
  · rename_i h
    exact (max_eq_right h).symm
  · rename_i h
    exact (max_eq_left (by omega)).symm

/-- Core of binary64 rounding for a positive rational: round `a` onto the
grid of spacing `2^max(⌊log₂ a⌋ - 52, -1074)` (53 significand bits, gradual
underflow), ties to even. -/
def flPos (a : ℚ) : ℚ :=
  (rte (a / pow2z (maxI (ratLog2 a - 52) (-1074))) : ℚ) * pow2z (maxI (ratLog2 a - 52) (-1074))

theorem flPos_def (a : ℚ) : flPos a =
    (rte (a / 2 ^ max (ratLog2 a - 52) (-1074)) : ℚ) * 2 ^ max (ratLog2 a - 52) (-1074) := by
  unfold flPos
  rw [maxI_eq, pow2z_eq]

/-- Round an exact rational to the nearest IEEE-754 binary64 value.  Every Go
float64 operation `x ⊕ y` in the source is embedded as `flRound` of the exact
rational result.  Magnitudes that round beyond the largest finite float64
saturate to the stand-in `±2^1024` (representing ±Inf; no theorem below
reaches that region). -/
def flRound (q : ℚ) : ℚ :=
  if q = 0 then 0
  else if q < 0 then
    -(if pow2z 1024 ≤ flPos (-q) then pow2z 1024 else flPos (-q))
  else
    (if pow2z 1024 ≤ flPos q then pow2z 1024 else flPos q)

theorem flPos_err (a : ℚ) (ha : 0 < a) (hlo : (2:ℚ) ^ (-1022:ℤ) ≤ a) :
    |flPos a - a| ≤ a * 2 ^ (-53:ℤ) := by
  obtain ⟨hel, her⟩ := ratLog2_spec a ha
  have he : -1022 ≤ ratLog2 a := by
    by_contra hcon
    push_neg at hcon
    have : ratLog2 a + 1 ≤ -1022 := by omega
    have h2 : (2:ℚ) ^ (ratLog2 a + 1) ≤ 2 ^ (-1022:ℤ) :=
      zpow_le_zpow_right₀ (by norm_num) this
    linarith
  have hu : max (ratLog2 a - 52) (-1074) = ratLog2 a - 52 := by omega
  rw [flPos_def, hu]
  have hpow : (0:ℚ) < 2 ^ (ratLog2 a - 52) := by positivity
  have key : (rte (a / 2 ^ (ratLog2 a - 52)) : ℚ) * 2 ^ (ratLog2 a - 52) - a =
      ((rte (a / 2 ^ (ratLog2 a - 52)) : ℚ) - a / 2 ^ (ratLog2 a - 52)) *
        2 ^ (ratLog2 a - 52) := by
    field_simp
  rw [key, abs_mul, abs_of_pos hpow]
  calc |(rte (a / 2 ^ (ratLog2 a - 52)) : ℚ) - a / 2 ^ (ratLog2 a - 52)| *
        2 ^ (ratLog2 a - 52)
      ≤ 1/2 * 2 ^ (ratLog2 a - 52) :=
        mul_le_mul_of_nonneg_right (rte_err _) hpow.le
  _ = 2 ^ (ratLog2 a - 53) := by
        rw [show ratLog2 a - 53 = ratLog2 a - 52 + (-1) by ring,
          zpow_add₀ (by norm_num : (2:ℚ) ≠ 0)]
        norm_num
        ring
  _ = 2 ^ ratLog2 a * 2 ^ (-53:ℤ) := by
        rw [← zpow_add₀ (by norm_num : (2:ℚ) ≠ 0)]
        ring_nf
  _ ≤ a * 2 ^ (-53:ℤ) := mul_le_mul_of_nonneg_right hel (by positivity)

theorem flPos_int (n : ℤ) (h1 : 0 < n) (h2 : n ≤ 2 ^ 53) : flPos (n : ℚ) = n := by
  have hq : (0:ℚ) < (n : ℚ) := by exact_mod_cast h1
  obtain ⟨hel, her⟩ := ratLog2_spec (n : ℚ) hq
  have hn1 : (1:ℚ) ≤ (n : ℚ) := by exact_mod_cast h1
  have he0 : 0 ≤ ratLog2 (n : ℚ) := by
    by_contra hcon
    push_neg at hcon
    have : ratLog2 (n : ℚ) + 1 ≤ 0 := by omega
    have h2' : (2:ℚ) ^ (ratLog2 (n : ℚ) + 1) ≤ 2 ^ (0:ℤ) :=
      zpow_le_zpow_right₀ (by norm_num) this
    rw [zpow_zero] at h2'
    linarith
  have he53 : ratLog2 (n : ℚ) ≤ 53 := by
    by_contra hcon
    push_neg at hcon
    have h54 : (54:ℤ) ≤ ratLog2 (n : ℚ) := by omega
    have h2' : (2:ℚ) ^ (54:ℤ) ≤ 2 ^ ratLog2 (n : ℚ) :=
      zpow_le_zpow_right₀ (by norm_num) h54
    have hn2 : ((n:ℚ)) ≤ ((2:ℚ) ^ (53:ℕ)) := by exact_mod_cast h2
    have : ((2:ℚ) ^ (54:ℤ)) = 2 ^ (54:ℕ) := by norm_num
    have h2'' : ((2:ℚ) ^ (54:ℕ)) ≤ (n:ℚ) := by rw [← this]; exact le_trans h2' hel
    have : ((2:ℚ) ^ (53:ℕ)) < 2 ^ (54:ℕ) := by norm_num
    linarith
  have hu : max (ratLog2 (n:ℚ) - 52) (-1074) = ratLog2 (n:ℚ) - 52 := by omega
  rw [flPos_def, hu]
  by_cases hcase : ratLog2 (n:ℚ) ≤ 52
  · -- grid spacing 2^(e-52) with e ≤ 52: n is a grid point
    have ht : (0:ℤ) ≤ 52 - ratLog2 (n:ℚ) := by omega
    have hdiv : (n : ℚ) / 2 ^ (ratLog2 (n:ℚ) - 52) =
        ((n * 2 ^ (52 - ratLog2 (n:ℚ)).toNat : ℤ) : ℚ) := by
      push_cast
      rw [div_eq_iff (by positivity : ((2:ℚ) ^ (ratLog2 (n:ℚ) - 52)) ≠ 0),
        mul_assoc, ← zpow_natCast (2:ℚ) (52 - ratLog2 (n:ℚ)).toNat,
        ← zpow_add₀ (by norm_num : (2:ℚ) ≠ 0)]
      rw [show ((52 - ratLog2 (n:ℚ)).toNat : ℤ) = 52 - ratLog2 (n:ℚ) by omega]
      norm_num
    rw [hdiv, rte_intCast]
    push_cast
    rw [mul_assoc, ← zpow_natCast (2:ℚ) (52 - ratLog2 (n:ℚ)).toNat,
      ← zpow_add₀ (by norm_num : (2:ℚ) ≠ 0)]
    rw [show ((52 - ratLog2 (n:ℚ)).toNat : ℤ) + (ratLog2 (n:ℚ) - 52) = 0 by omega]
    norm_num
  · -- e = 53 forces n = 2^53
    have he : ratLog2 (n:ℚ) = 53 := by omega
    have hn53 : (2:ℚ) ^ (53:ℕ) ≤ (n:ℚ) := by
      have := hel
      rw [he] at this
      exact_mod_cast (by norm_num : ((2:ℚ) ^ (53:ℤ)) = 2 ^ (53:ℕ)) ▸ this
    have hneq : (n:ℚ) = 2 ^ (53:ℕ) := le_antisymm (by exact_mod_cast h2) hn53
    rw [he, hneq]
    norm_num
    rw [show (4503599627370496 : ℚ) = ((4503599627370496 : ℤ) : ℚ) by norm_num, rte_intCast]
    norm_num

/-- Two's-complement wraparound of Go `int32` arithmetic. -/
def wrap32 (x : ℤ) : ℤ := (x + 2147483648) % 4294967296 - 2147483648

/-- Two's-complement wraparound of Go `int64` arithmetic. -/
def wrap64 (x : ℤ) : ℤ := (x + 9223372036854775808) % 18446744073709551616 - 9223372036854775808

theorem wrap32_eq_self (x : ℤ) (h1 : -2147483648 ≤ x) (h2 : x ≤ 2147483647) :
    wrap32 x = x := by
  unfold wrap32
  omega

theorem wrap64_eq_self (x : ℤ) (h1 : -9223372036854775808 ≤ x) (h2 : x ≤ 9223372036854775807) :
    wrap64 x = x := by
  unfold wrap64
  omega

/-- Truncation of a rational toward zero (Go's float-to-int conversion rule
and the rounding of Go's integer division). -/
def truncQ (q : ℚ) : ℤ := if q < 0 then -((-q).floor) else q.floor

theorem truncQ_eq_floor (q : ℚ) (h : 0 ≤ q) : truncQ q = ⌊q⌋ := by
  unfold truncQ
  rw [if_neg (by linarith), ratFloor_eq]

theorem truncQ_neg (q : ℚ) : truncQ (-q) = -truncQ q := by
  unfold truncQ
  rcases lt_trichotomy q 0 with h | h | h
  · rw [if_neg (by linarith : ¬(-q < 0)), if_pos h, neg_neg]
  · subst h
    norm_num
    rw [ratFloor_eq]
    simp
  · rw [if_pos (by linarith : -q < 0), if_neg (by linarith : ¬(q < 0)), neg_neg]

/-- Go float64→int32 conversion: truncate toward zero.  An out-of-range value
is implementation-defined in Go (amd64 produces the int32 minimum, used here
as the sentinel); no theorem below depends on the out-of-range branch. -/
def int32ofFloat (q : ℚ) : ℤ :=
  if truncQ q < -2147483648 ∨ 2147483647 < truncQ q then -2147483648 else truncQ q

/-- Go float64→int8 conversion (same convention as `int32ofFloat`). -/
def int8ofFloat (q : ℚ) : ℤ :=
  if truncQ q < -128 ∨ 127 < truncQ q then -128 else truncQ q

/-- `mathhelper.Round` (external dependency of `Interval.Duration`): rounds a
float64 to the nearest integer, half away from zero, like Go's `math.Round`. -/
def goRound (q : ℚ) : ℤ := if q < 0 then -((-q + 1/2).floor) else (q + 1/2).floor

/-- Go `math.Remainder(x, y)`: the IEEE-754 remainder `x - y*n` where `n` is
the integer nearest the exact quotient `x/y` (ties to even).  For float64
arguments the result is exactly representable, so no re-rounding occurs. -/
def goRemainder (x y : ℚ) : ℚ := x - y * rte (x / y)

theorem flRound_zero : flRound 0 = 0 := by
  unfold flRound
  simp

theorem flRound_neg (q : ℚ) : flRound (-q) = -flRound q := by
  rcases lt_trichotomy q 0 with h | h | h
  · have hq0 : q ≠ 0 := ne_of_lt h
    have h1 : -q ≠ 0 := neg_ne_zero.mpr hq0
    have h2 : ¬(-q < 0) := by linarith
    unfold flRound
    rw [if_neg h1, if_neg h2, if_neg hq0, if_pos h, neg_neg]
  · subst h
    simp [flRound]
  · have hq0 : q ≠ 0 := ne_of_gt h
    have h1 : -q ≠ 0 := neg_ne_zero.mpr hq0
    have h2 : -q < 0 := by linarith
    have h3 : ¬(q < 0) := by linarith
    unfold flRound
    rw [if_neg h1, if_pos h2, if_neg hq0, if_neg h3]
    simp only [neg_neg]

theorem flRound_pos_eq_flPos (q : ℚ) (h0 : 0 < q) (hsmall : flPos q < pow2z 1024) :
    flRound q = flPos q := by
  unfold flRound
  rw [if_neg (by linarith), if_neg (by linarith), if_neg (by linarith)]

theorem pow2z_1024_gt (x : ℚ) (h : x ≤ (2:ℚ) ^ (54:ℤ)) : x < pow2z 1024 := by
  rw [pow2z_eq]
  calc x ≤ (2:ℚ) ^ (54:ℤ) := h
  _ < 2 ^ (1024:ℤ) := by
        apply zpow_lt_zpow_right₀ (by norm_num : (1:ℚ) < 2)
        norm_num

theorem intCast_le_zpow54 (k : ℤ) (h : k ≤ 2 ^ 53) : ((k : ℤ) : ℚ) ≤ (2:ℚ) ^ (54:ℤ) := by
  calc ((k : ℤ) : ℚ) ≤ ((2 ^ 53 : ℤ) : ℚ) := by exact_mod_cast h
  _ = (2:ℚ) ^ (53:ℤ) := by
        rw [show ((53:ℤ)) = ((53:ℕ) : ℤ) by norm_num, zpow_natCast]
        push_cast
        ring
  _ ≤ (2:ℚ) ^ (54:ℤ) := by
        apply zpow_le_zpow_right₀ (by norm_num : (1:ℚ) ≤ 2)
        norm_num

theorem truncQ_intCast (k : ℤ) : truncQ ((k : ℤ) : ℚ) = k := by
  unfold truncQ
  split
  · rw [show (-((k:ℤ):ℚ)) = ((-k : ℤ) : ℚ) by push_cast; ring, ratFloor_eq, Int.floor_intCast]
    ring
  · rw [ratFloor_eq, Int.floor_intCast]

theorem flRound_int (k : ℤ) (h1 : -(2 ^ 53) ≤ k) (h2 : k ≤ 2 ^ 53) :
    flRound ((k : ℤ) : ℚ) = k := by
  rcases lt_trichotomy k 0 with h | h | h
  · have hq : ((k:ℤ):ℚ) < 0 := by exact_mod_cast h
    have hq0 : ((k:ℤ):ℚ) ≠ 0 := ne_of_lt hq
    have hneg : -((k:ℤ):ℚ) = (((-k) : ℤ) : ℚ) := by push_cast; ring
    have hfl : flPos (((-k) : ℤ) : ℚ) = ((-k : ℤ) : ℚ) := flPos_int (-k) (by omega) (by omega)
    unfold flRound
    rw [if_neg hq0, if_pos hq, hneg, hfl,
      if_neg (not_le.mpr (pow2z_1024_gt _ (intCast_le_zpow54 (-k) (by omega))))]
    push_cast
    ring
  · subst h
    simpa using flRound_zero
  · have hq : (0:ℚ) < ((k:ℤ):ℚ) := by exact_mod_cast h
    have hfl : flPos ((k : ℤ) : ℚ) = ((k : ℤ) : ℚ) := flPos_int k h h2
    rw [flRound_pos_eq_flPos _ hq, hfl]
    rw [hfl]
    exact pow2z_1024_gt _ (intCast_le_zpow54 k h2)

/-- Dividing an integer below `2^53` by a small constant and rounding the
quotient to binary64 never crosses an integer boundary: truncating the
rounded float quotient equals exact truncating division.  (The float
relative error is below `2^-53`, while the distance from the exact quotient
to the nearest wrong integer is at least `1/b`.) -/
theorem truncFl_div (a b : ℕ) (hb : 0 < b) (hb2 : b ≤ 3600) (ha : a < 2 ^ 53) :
    truncQ (flRound ((a : ℚ) / b)) = ((a / b : ℕ) : ℤ) := by
  rcases Nat.eq_zero_or_pos a with h0 | hpos
  · subst h0
    rw [show (((0:ℕ) : ℚ) / b) = ((((0:ℤ)) : ℤ) : ℚ) by push_cast; ring,
      flRound_int 0 (by norm_num) (by norm_num), truncQ_intCast]
    norm_num
  · have hbq : (0:ℚ) < (b:ℚ) := by exact_mod_cast hb
    have haq : (0:ℚ) < (a:ℚ) := by exact_mod_cast hpos
    have hq0 : 0 < (a:ℚ) / b := div_pos haq hbq
    have hb2q : (b:ℚ) ≤ 3600 := by exact_mod_cast hb2
    have ha1q : (1:ℚ) ≤ (a:ℚ) := by exact_mod_cast hpos
    have hqlo : (2:ℚ) ^ (-1022:ℤ) ≤ (a:ℚ) / b := by
      have h1 : (1:ℚ) / 3600 ≤ (a:ℚ) / b := by
        rw [div_le_div_iff₀ (by norm_num) hbq]
        nlinarith
      calc (2:ℚ) ^ (-1022:ℤ) ≤ (2:ℚ) ^ (-12:ℤ) :=
            zpow_le_zpow_right₀ (by norm_num) (by norm_num)
      _ = 1 / 4096 := by
            rw [zpow_neg, show ((12:ℤ)) = ((12:ℕ) : ℤ) by norm_num, zpow_natCast,
              inv_eq_one_div]
            norm_num
      _ ≤ 1 / 3600 := by norm_num
      _ ≤ (a:ℚ) / b := h1
    have herr := flPos_err ((a:ℚ) / b) hq0 hqlo
    have hsmall : ((a:ℚ) / b) * (2:ℚ) ^ (-53:ℤ) < 1 / b := by
      have ha53 : (a:ℚ) * (2:ℚ) ^ (-53:ℤ) < 1 := by
        have haq2 : (a:ℚ) < (2:ℚ) ^ (53:ℤ) := by
          have : (a:ℚ) < ((2 ^ 53 : ℕ) : ℚ) := by exact_mod_cast ha
          calc (a:ℚ) < ((2 ^ 53 : ℕ) : ℚ) := this
          _ = (2:ℚ) ^ (53:ℤ) := by
                rw [show ((53:ℤ)) = ((53:ℕ) : ℤ) by norm_num, zpow_natCast]
                push_cast
                ring
        calc (a:ℚ) * (2:ℚ) ^ (-53:ℤ) < (2:ℚ) ^ (53:ℤ) * (2:ℚ) ^ (-53:ℤ) :=
              mul_lt_mul_of_pos_right haq2 (by positivity)
        _ = 1 := by
              rw [← zpow_add₀ (by norm_num : (2:ℚ) ≠ 0)]
              norm_num
      calc ((a:ℚ) / b) * (2:ℚ) ^ (-53:ℤ) = ((a:ℚ) * (2:ℚ) ^ (-53:ℤ)) / b := by ring
      _ < 1 / b := by
            rw [div_lt_div_iff₀ hbq hbq]
            exact mul_lt_mul_of_pos_right ha53 hbq
    have hup : flPos ((a:ℚ) / b) ≤ (a:ℚ) / b + ((a:ℚ) / b) * 2 ^ (-53:ℤ) := by
      have h := (abs_le.mp herr).2
      linarith
    have hdown : (a:ℚ) / b - ((a:ℚ) / b) * 2 ^ (-53:ℤ) ≤ flPos ((a:ℚ) / b) := by
      have h := (abs_le.mp herr).1
      linarith
    have hrb : a % b < b := Nat.mod_lt a hb
    have hsplit : a = b * (a / b) + a % b := (Nat.div_add_mod a b).symm
    have hcast : (a:ℚ) = (b:ℚ) * ((a / b : ℕ) : ℚ) + ((a % b : ℕ) : ℚ) := by
      exact_mod_cast congrArg (fun z : ℕ => (z : ℚ)) hsplit
    have hqub : (a:ℚ) / b ≤ ((a / b : ℕ) : ℚ) + 1 - 1 / b := by
      rw [div_le_iff₀ hbq]
      have hrbq : ((a % b : ℕ) : ℚ) ≤ (b:ℚ) - 1 := by
        have : (a % b : ℕ) + 1 ≤ b := hrb
        have hc : ((a % b : ℕ) : ℚ) + 1 ≤ (b:ℚ) := by exact_mod_cast this
        linarith
      have expand : (((a / b : ℕ) : ℚ) + 1 - 1 / b) * b = (b:ℚ) * ((a / b : ℕ) : ℚ) + b - 1 := by
        field_simp
        ring
      rw [expand, hcast]
      linarith
    have hcc : ((((a / b : ℕ) : ℤ)) : ℚ) = ((a / b : ℕ) : ℚ) := Int.cast_natCast _
    rcases Nat.eq_zero_or_pos (a % b) with hr0 | hrpos
    · have hqk : (a:ℚ) / b = (((a / b : ℕ) : ℤ) : ℚ) := by
        rw [hcc, hcast, hr0]
        rw [show (((0:ℕ)) : ℚ) = 0 by norm_num, add_zero]
        field_simp
      rw [hqk, flRound_int _ (by
          have : (0:ℤ) ≤ ((a / b : ℕ) : ℤ) := Int.ofNat_nonneg _
          omega) (by
          have h4 : a / b ≤ a := Nat.div_le_self a b
          have h5 : ((a / b : ℕ) : ℤ) ≤ (a : ℤ) := by exact_mod_cast h4
          have h6 : (a : ℤ) < 2 ^ 53 := by exact_mod_cast ha
          omega),
        truncQ_intCast]
    · have hqlb : ((a / b : ℕ) : ℚ) + 1 / b ≤ (a:ℚ) / b := by
        rw [le_div_iff₀ hbq]
        have expand : (((a / b : ℕ) : ℚ) + 1 / b) * b = (b:ℚ) * ((a / b : ℕ) : ℚ) + 1 := by
          field_simp
          ring
        rw [expand, hcast]
        have : (1:ℚ) ≤ ((a % b : ℕ) : ℚ) := by exact_mod_cast hrpos
        linarith
    -- strict bracketing of the rounded quotient
      have hflub : flPos ((a:ℚ) / b) < ((a / b : ℕ) : ℚ) + 1 := by
        calc flPos ((a:ℚ) / b) ≤ (a:ℚ) / b + ((a:ℚ) / b) * 2 ^ (-53:ℤ) := hup
        _ < (a:ℚ) / b + 1 / b := by linarith
        _ ≤ ((a / b : ℕ) : ℚ) + 1 := by linarith
      have hfllb : ((a / b : ℕ) : ℚ) < flPos ((a:ℚ) / b) := by
        calc ((a / b : ℕ) : ℚ) ≤ (a:ℚ) / b - 1 / b := by linarith
        _ < (a:ℚ) / b - ((a:ℚ) / b) * 2 ^ (-53:ℤ) := by linarith
        _ ≤ flPos ((a:ℚ) / b) := hdown
      have hnosat : flPos ((a:ℚ) / b) < pow2z 1024 := by
        apply pow2z_1024_gt
        have hk53 : ((a / b : ℕ) : ℤ) + 1 ≤ 2 ^ 53 := by
          have : a / b ≤ a := Nat.div_le_self a b
          have h2 : ((a / b : ℕ) : ℤ) ≤ (a : ℤ) := by exact_mod_cast this
          have h3 : (a : ℤ) < 2 ^ 53 := by exact_mod_cast ha
          omega
        have hz54 := intCast_le_zpow54 (((a / b : ℕ) : ℤ) + 1) hk53
        have hcst : ((((a / b : ℕ) : ℤ) + 1 : ℤ) : ℚ) = ((a / b : ℕ) : ℚ) + 1 := by
          rw [Int.cast_add, Int.cast_one, hcc]
        rw [hcst] at hz54
        linarith
      rw [flRound_pos_eq_flPos _ hq0 hnosat]
      have hflpos : (0:ℚ) ≤ flPos ((a:ℚ) / b) :=
        le_trans (Nat.cast_nonneg (a / b)) hfllb.le
      rw [truncQ_eq_floor _ hflpos]
      rw [Int.floor_eq_iff]
      constructor
      · rw [hcc]
        linarith
      · rw [hcc]
        linarith

/-- Signed version of `truncFl_div`, matching Go's truncating division. -/
theorem truncFl_div_int (n : ℤ) (b : ℕ) (hb : 0 < b) (hb2 : b ≤ 3600)
    (h1 : -(2 ^ 53) < n) (h2 : n < 2 ^ 53) :
    truncQ (flRound ((n:ℚ) / b)) = Int.tdiv n b := by
  rcases le_or_lt 0 n with hn | hn
  · have hcast : ((n.toNat : ℕ) : ℚ) = (n : ℚ) := by exact_mod_cast Int.toNat_of_nonneg hn
    rw [← hcast, truncFl_div n.toNat b hb hb2 (by omega)]
    rw [show ((n.toNat / b : ℕ) : ℤ) = ((n.toNat : ℕ) : ℤ).tdiv ((b:ℕ) : ℤ) from
      Int.ofNat_tdiv n.toNat b]
    congr 1
    omega
  · have hcast : ((((-n).toNat : ℕ)) : ℚ) = -(n : ℚ) := by
      have : (((-n).toNat : ℕ) : ℤ) = -n := Int.toNat_of_nonneg (by omega)
      exact_mod_cast this
    have hneg : (n:ℚ) / b = -((((-n).toNat : ℕ) : ℚ) / b) := by
      rw [hcast]
      ring
    rw [hneg, flRound_neg, truncQ_neg, truncFl_div (-n).toNat b hb hb2 (by omega)]
    rw [show (((-n).toNat / b : ℕ) : ℤ) = (((-n).toNat : ℕ) : ℤ).tdiv ((b:ℕ) : ℤ) from
      Int.ofNat_tdiv (-n).toNat b]
    rw [show ((((-n).toNat : ℕ)) : ℤ) = -n from Int.toNat_of_nonneg (by omega)]
    rw [Int.neg_tdiv]
    ring

def digitVal (c : Char) : ℕ := c.toNat - 48

/-- Maximal run of decimal digits at the front of the list (the deterministic
reduction of the regex atom `[0-9]+`, which never needs to give digits back
because every following literal starts with a non-digit). -/
def takeDigits : List Char → List Char × List Char
  | [] => ([], [])
  | c :: t =>
    if isDigitCh c then
      ((takeDigits t).1.cons c, (takeDigits t).2)
    else ([], c :: t)

def digitsToNat (ds : List Char) : ℕ := ds.foldl (fun a c => a * 10 + digitVal c) 0

/-- `strconv.ParseInt(s, 10, bits)` on the sign-and-digits strings produced by
the regex: optional `+`/`-` sign, one or more digits, error when the value
does not fit the signed `bits`-wide range. -/
def goParseInt (s : List Char) (bits : ℕ) : Option ℤ :=
  match s with
  | [] => none
  | c :: t =>
    if c = '+' then
      if t ≠ [] ∧ t.all isDigitCh then goParseIntRange (digitsToNat t) bits else none
    else if c = '-' then
      if t ≠ [] ∧ t.all isDigitCh then goParseIntRange (-(digitsToNat t : ℤ)) bits else none
    else
      if (c :: t).all isDigitCh then goParseIntRange (digitsToNat (c :: t)) bits else none
where
  goParseIntRange (v : ℤ) (bits : ℕ) : Option ℤ :=
    if v < -((2 ^ (bits - 1) : ℕ) : ℤ) ∨ ((2 ^ (bits - 1) : ℕ) : ℤ) - 1 < v then none else some v

/-- `strconv.ParseFloat(s, 64)` on the strings the regex can capture for the
seconds field (`digits`, `digits.digits`, `digits e digits`, `digits E digits`,
or `digits` + junk): parse the exact decimal value, round it to binary64, and
fail on malformed input or on overflow to ±Inf (Go's `ErrRange`). -/
def goParseFloat (s : List Char) : Option ℚ :=
  match takeDigits s with
  | ([], _) => none
  | (d1, rest) =>
    match goParseFloatTail (digitsToNat d1 : ℚ) rest with
    | none => none
    | some v =>
      if flRound v ≤ -(pow2z 1024) ∨ pow2z 1024 ≤ flRound v then none else some (flRound v)
where
  goParseFloatTail (ip : ℚ) : List Char → Option ℚ
    | [] => some ip
    | '.' :: t =>
      match takeDigits t with
      | ([], _) => none
      | (d2, r2) =>
        if r2 = [] then
          some (ip + (digitsToNat d2 : ℚ) / ((10 ^ d2.length : ℕ) : ℚ))
        else none
    | 'e' :: t => goParseFloatExp ip t
    | 'E' :: t => goParseFloatExp ip t
    | _ => none
  goParseFloatExp (ip : ℚ) (t : List Char) : Option ℚ :=
    match t with
    | '+' :: t2 =>
      if t2 ≠ [] ∧ t2.all isDigitCh then some (ip * ((10 ^ digitsToNat t2 : ℕ) : ℚ)) else none
    | '-' :: t2 =>
      if t2 ≠ [] ∧ t2.all isDigitCh then some (ip / ((10 ^ digitsToNat t2 : ℕ) : ℚ)) else none
    | t2 =>
      if t2 ≠ [] ∧ t2.all isDigitCh then some (ip * ((10 ^ digitsToNat t2 : ℕ) : ℚ)) else none

/-- Decimal digits of `n`, most significant first (fuel-driven so the kernel
can evaluate it; `fuel ≥ n` always suffices). -/
def natToDigitsF : ℕ → ℕ → List Char
  | 0, _ => []
  | fuel + 1, n =>
    if n = 0 then [] else natToDigitsF fuel (n / 10) ++ [Char.ofNat (48 + n % 10)]

/-- Decimal rendering of a natural number (`strconv.FormatInt` for `n ≥ 0`). -/
def natToDecimal (n : ℕ) : List Char := if n = 0 then ['0'] else natToDigitsF n n

/-- `strconv.FormatInt(z, 10)`. -/
def intToDecimal (z : ℤ) : List Char :=
  if z < 0 then '-' :: natToDecimal (-z).toNat else natToDecimal z.toNat

/-- `fmt.Sprintf("%02d", z)`: zero-pad to width 2 (negative one-digit values
already have width 2 with their sign). -/
def pad2 (z : ℤ) : List Char :=
  if (intToDecimal z).length < 2 then '0' :: intToDecimal z else intToDecimal z

namespace Timehelper

/-- The seven submatches of the anchored interval regex
`^(?:([+-]?[0-9]+) year)? ?(?:([+-]?[0-9]+) mons)? ?(?:([+-]?[0-9]+) days)? ?(?:([+-])?([0-9]+):([0-9]+):([0-9]+(?:,|.[0-9]+)?))?$`
(src/interval.go, `re`).  `none` models an unmatched group (which Go's
`FindStringSubmatch` reports as the empty string). -/
structure ReCaps where
  yearN : Option (List Char)
  monsN : Option (List Char)
  daysN : Option (List Char)
  timeSign : Option Char
  hourN : Option (List Char)
  minN : Option (List Char)
  secN : Option (List Char)
deriving DecidableEq

/-- Consume the literal `u` at the front of `s`. -/
def litSp : List Char → List Char → Option (List Char)
  | [], s => some s
  | _ :: _, [] => none
  | c :: ut, d :: st => if c = d then litSp ut st else none

/-- The regex atom `[+-]?[0-9]+`, greedy: the sign, if present, is kept only
when digits follow (giving the sign back cannot help, since `[0-9]+` then
fails on the sign character). -/
def signedNum (s : List Char) : Option (List Char × List Char) :=
  match s with
  | [] => none
  | c :: t =>
    if c = '+' ∨ c = '-' then
      match takeDigits t with
      | ([], _) => none
      | (d, r) => some (c :: d, r)
    else
      match takeDigits (c :: t) with
      | ([], _) => none
      | (d, r) => some (d, r)

/-- One optional unit group `(?:([+-]?[0-9]+) <unit>)?` in leftmost-greedy
order: try the match (and the whole continuation after it) first, then fall
back to skipping the group. -/
def unitGroup (unit : List Char) (s : List Char)
    (k : List Char → Option (List Char) → Option ReCaps) : Option ReCaps :=
  (match signedNum s with
   | some (n, r) =>
     match litSp unit r with
     | some r2 => k r2 (some n)
     | none => none
   | none => none) <|> k s none

/-- The optional separator `\x20?`, greedy. -/
def spOpt (s : List Char) (k : List Char → Option ReCaps) : Option ReCaps :=
  match s with
  | ' ' :: t => k t <|> k s
  | _ => k s

/-- Body of the time group `([0-9]+):([0-9]+):([0-9]+(?:,|.[0-9]+)?)` after an
already-consumed optional sign.  The three fraction alternatives are tried in
the regex's leftmost order: `,`, then `.` (any character except newline)
followed by digits, then empty. -/
def timeCore (sgn : Option Char) (s : List Char)
    (k : Option Char → Option (List Char) → Option (List Char) → Option (List Char) →
      List Char → Option ReCaps) : Option ReCaps :=
  match takeDigits s with
  | ([], _) => none
  | (h, r1) =>
    match r1 with
    | ':' :: r2 =>
      match takeDigits r2 with
      | ([], _) => none
      | (m, r3) =>
        match r3 with
        | ':' :: r4 =>
          match takeDigits r4 with
          | ([], _) => none
          | (d1, r5) =>
            (match r5 with
             | ',' :: r6 => k sgn (some h) (some m) (some (d1 ++ [','])) r6
             | _ => none) <|>
            (match r5 with
             | c :: r6 =>
               if c = '\n' then none
               else
                 match takeDigits r6 with
                 | ([], _) => none
                 | (d2, r7) => k sgn (some h) (some m) (some (d1 ++ c :: d2)) r7
             | [] => none) <|>
            k sgn (some h) (some m) (some d1) r5
        | _ => none
    | _ => none

/-- The optional signed time group `(?:([+-])?([0-9]+):([0-9]+):([0-9]+(?:,|.[0-9]+)?))?`. -/
def timeGroup (s : List Char)
    (k : Option Char → Option (List Char) → Option (List Char) → Option (List Char) →
      List Char → Option ReCaps) : Option ReCaps :=
  (match s with
   | c :: t => if c = '+' ∨ c = '-' then timeCore (some c) t k else timeCore none s k
   | [] => timeCore none [] k) <|> k none none none none s

/-- Anchored match of the whole interval regex with leftmost-greedy
(backtracking) semantics, returning the seven submatches. -/
def matchRe (s : List Char) : Option ReCaps :=
  unitGroup " year".data s fun r1 p1 =>
  spOpt r1 fun r2 =>
  unitGroup " mons".data r2 fun r3 p2 =>
  spOpt r3 fun r4 =>
  unitGroup " days".data r4 fun r5 p3 =>
  spOpt r5 fun r6 =>
  timeGroup r6 fun sg ph pm ps r7 =>
  if r7 = [] then some ⟨p1, p2, p3, sg, ph, pm, ps⟩ else none

/-- The `Interval` value type (src/interval.go): months, days and fractional
seconds, independently signed, never normalized into each other.  `Months` and
`Days` hold Go `int32` values (kept in range by `wrap32` at every operation);
`Seconds` holds a Go `float64` value (kept binary64-representable by
`flRound` at every operation). -/
structure Interval where
  Months : ℤ
  Days : ℤ
  Seconds : ℚ
deriving DecidableEq

/-- Bool-level equality of embedded float64 values (exact comparison of the
canonical rational representations). -/
def ratEqB (x y : ℚ) : Bool := x.num == y.num && x.den == y.den

theorem ratEqB_iff (x y : ℚ) : ratEqB x y = true ↔ x = y := by
  unfold ratEqB
  constructor
  · intro h
    simp only [Bool.and_eq_true, beq_iff_eq] at h
    exact Rat.ext h.1 h.2
  · intro h
    subst h
    simp

/-- Bool-level structural equality of `Interval` (used so that concrete
evaluations can be checked by kernel reduction). -/
def Interval.beq (a b : Interval) : Bool :=
  a.Months == b.Months && a.Days == b.Days && ratEqB a.Seconds b.Seconds

theorem Interval.eq_of_beq {a b : Interval} (h : Interval.beq a b = true) : a = b := by
  unfold Interval.beq at h
  simp only [Bool.and_eq_true, beq_iff_eq] at h
  obtain ⟨⟨h1, h2⟩, h3⟩ := h
  rw [ratEqB_iff] at h3
  cases a
  cases b
  simp_all

/-- One conversion step of `Parse`: a captured group is either absent (field
skipped), a number that converts (fold it into the interval), or a number
whose conversion fails — in which case Go's early `return` surfaces the error
together with the interval fields accumulated so far (named return values). -/
def parseStep (cap : Option (List Char)) (bits : ℕ) (i : Interval)
    (upd : Interval → ℤ → Interval) (next : Interval → Interval × Bool) :
    Interval × Bool :=
  match cap with
  | none => next i
  | some str =>
    match goParseInt str bits with
    | none => (i, true)
    | some v => next (upd i v)

/-- `Parse` (src/interval.go): match the interval regex, then fold the year,
months, days, hour, minute and second captures into the three fields.  Year
contributes `×12` into `Months` (int32 wraparound, unchecked in the source);
the optional leading `-` of the time group negates the whole seconds
aggregate.  Returns the interval together with an error flag (`true` = error),
mirroring Go's `(i Interval, err error)` named results. -/
def Parse (s : String) : Interval × Bool :=
  match matchRe s.data with
  | none => (⟨0, 0, 0⟩, true)
  | some parts =>
    parseStep parts.yearN 32 ⟨0, 0, 0⟩
      (fun i v => { i with Months := wrap32 (v * 12) }) fun i1 =>
    parseStep parts.monsN 32 i1
      (fun i v => { i with Months := wrap32 (i.Months + v) }) fun i2 =>
    parseStep parts.daysN 32 i2
      (fun i v => { i with Days := v }) fun i3 =>
    parseStep parts.hourN 64 i3
      (fun i v => { i with Seconds := flRound (flRound (v : ℚ) * 3600) }) fun i4 =>
    parseStep parts.minN 64 i4
      (fun i v => { i with Seconds := flRound (i.Seconds + flRound (flRound (v : ℚ) * 60)) })
      fun i5 =>
    match parts.secN with
    | none =>
      if parts.timeSign = some '-' then ({ i5 with Seconds := -i5.Seconds }, false)
      else (i5, false)
    | some str =>
      match goParseFloat str with
      | none => (i5, true)
      | some tf =>
        if parts.timeSign = some '-' then
          ({ i5 with Seconds := -(flRound (i5.Seconds + tf)) }, false)
        else ({ i5 with Seconds := flRound (i5.Seconds + tf) }, false)

/-- `NormalYears` (src/interval.go): `i.Months / 12` with Go's truncating
integer division. -/
def Interval.NormalYears (i : Interval) : ℤ := Int.tdiv i.Months 12

/-- `NormalMonths`: `i.Months % 12` with Go's truncating remainder. -/
def Interval.NormalMonths (i : Interval) : ℤ := Int.tmod i.Months 12

/-- `NormalDays`: just the days part. -/
def Interval.NormalDays (i : Interval) : ℤ := i.Days

/-- `NormalHours`: `int32(i.Seconds / 3600)` — float64 division, then Go's
truncating float-to-int32 conversion. -/
def Interval.NormalHours (i : Interval) : ℤ :=
  int32ofFloat (flRound (i.Seconds / 3600))

/-- `NormalMinutes`: `int8((i.Seconds - float64(i.NormalHours())*3600) / 60)`
— each float64 operation rounds, then Go's truncating float-to-int8
conversion. -/
def Interval.NormalMinutes (i : Interval) : ℤ :=
  int8ofFloat (flRound (flRound (i.Seconds - flRound (flRound ((i.NormalHours : ℤ) : ℚ) * 3600)) / 60))

/-- Decimal digits of the fractional part `f ∈ [0,1)`: repeatedly multiply by
10 (fuel-driven; terminates within the fuel for every binary64 value, whose
fractional part has a power-of-two denominator of at most `2^1074`). -/
def fracDigitsF : ℕ → ℚ → List Char
  | 0, _ => []
  | fuel + 1, f =>
    if f = 0 then []
    else
      Char.ofNat (48 + ((f * 10).floor).toNat) :: fracDigitsF fuel (f * 10 - (f * 10).floor)

/-- `strconv.FormatFloat(v, 'f', -1, 64)` on a nonnegative value: the shortest
decimal that parses back to the same float64.  For the integer-valued floats
below `2^53` reached by the theorems this is the plain decimal rendering,
which the model produces exactly; for fractional values the model renders the
exact (terminating, since binary64 values are dyadic) decimal expansion
instead of running the shortest-round-trip search — no theorem evaluates it
there. -/
def goFormatFloatPos (q : ℚ) : List Char :=
  if q - q.floor = 0 then natToDecimal q.floor.toNat
  else natToDecimal q.floor.toNat ++ '.' :: fracDigitsF 1200 (q - q.floor)

/-- `strconv.FormatFloat(v, 'f', -1, 64)` (sign handling). -/
def goFormatFloat (q : ℚ) : List Char :=
  if q < 0 then '-' :: goFormatFloatPos (-q) else goFormatFloatPos q

/-- `String` (src/interval.go): postgres-style rendering.  All-zero prints
`00:00:00`; otherwise years/months (via truncating `NormalYears`/
`NormalMonths`), days, and — when the seconds field is non-zero — a
`[-]HH:MM:SS[.frac]` block built from `NormalHours`, `NormalMinutes` and
`math.Remainder(|seconds|, 60)` on the absolute seconds value, with `%02d`
padding for hours/minutes and a `0` prefix when the seconds figure is below
10.  With seconds zero the trailing separator space is dropped. -/
def Interval.String (i : Interval) : String :=
  if i.Months = 0 ∧ i.Days = 0 ∧ i.Seconds = 0 then "00:00:00"
  else
    let y := i.NormalYears
    let mon := i.NormalMonths
    let negativeTime := i.Seconds < 0
    let S := if negativeTime then -i.Seconds else i.Seconds
    let i2 : Interval := ⟨i.Months, i.Days, S⟩
    let h := i2.NormalHours
    let m := i2.NormalMinutes
    let s := goRemainder S 60
    let str :=
      (if y ≠ 0 then intToDecimal y ++ " year ".data else []) ++
      (if mon ≠ 0 then intToDecimal mon ++ " mons ".data else []) ++
      (if i.Days ≠ 0 then intToDecimal i.Days ++ " days ".data else [])
    if S ≠ 0 then
      String.mk (str ++
        (if negativeTime then ['-'] else []) ++
        pad2 h ++ [':'] ++ pad2 m ++ [':'] ++
        (if s < 10 then '0' :: goFormatFloat s else goFormatFloat s))
    else
      String.mk str.dropLast

/-- `Duration` (src/interval.go): `time.Duration` (int64 nanoseconds) as
`(int64(Months)*int64(daysInMonth)+int64(Days))*int64(secondsInDay)*1e9 +
mathhelper.Round(Seconds*1e9)`, with int64 wraparound at every step and the
float64 product rounded by the external `mathhelper.Round` (half away from
zero, like Go's `math.Round`; out-of-int64-range floats are
implementation-defined and modelled with `wrap64`). -/
def Interval.Duration (i : Interval) (daysInMonth secondsInDay : ℕ) : ℤ :=
  wrap64 (wrap64 (wrap64 (wrap64 (wrap64 (i.Months * (daysInMonth : ℤ)) + i.Days) *
      (secondsInDay : ℤ)) * 1000000000) +
    wrap64 (goRound (flRound (i.Seconds * 1000000000))))

/-- `Add` (src/interval.go): component-wise sum — int32 wraparound on months
and days, float64 rounding on seconds. -/
def Interval.Add (i add : Interval) : Interval :=
  ⟨wrap32 (i.Months + add.Months), wrap32 (i.Days + add.Days),
    flRound (i.Seconds + add.Seconds)⟩

/-- `Sub` (src/interval.go): component-wise difference. -/
def Interval.Sub (i sub : Interval) : Interval :=
  ⟨wrap32 (i.Months - sub.Months), wrap32 (i.Days - sub.Days),
    flRound (i.Seconds - sub.Seconds)⟩

/-- `Equal` (src/interval.go): part-by-part equality; the seconds parts are
floats compared strictly. -/
def Interval.Equal (i i2 : Interval) : Bool :=
  i.Months == i2.Months && i.Days == i2.Days && ratEqB i.Seconds i2.Seconds

/-- `LessOrEqual` (src/interval.go): every part of `i` ≤ the matching part of
`i2`. -/
def Interval.LessOrEqual (i i2 : Interval) : Bool :=
  decide (i.Months ≤ i2.Months) && decide (i.Days ≤ i2.Days) &&
    decide (i.Seconds ≤ i2.Seconds)

/-- `GreaterOrEqual` (src/interval.go): every part of `i` ≥ the matching part
of `i2`. -/
def Interval.GreaterOrEqual (i i2 : Interval) : Bool :=
  decide (i.Months ≥ i2.Months) && decide (i.Days ≥ i2.Days) &&
    decide (i.Seconds ≥ i2.Seconds)

/-- `Comparable` (src/interval.go): `LessOrEqual || GreaterOrEqual`. -/
def Interval.Comparable (i i2 : Interval) : Bool :=
  i.LessOrEqual i2 || i.GreaterOrEqual i2

/-- `Less` (src/interval.go). -/
def Interval.Less (i i2 : Interval) : Bool :=
  !(i.Equal i2) && i.LessOrEqual i2

/-- `Greater` (src/interval.go). -/
def Interval.Greater (i i2 : Interval) : Bool :=
  !(i.Equal i2) && i.GreaterOrEqual i2

theorem tdiv3600_range (n : ℤ) (hb1 : -(2147483648 * 3600) < n) (hb2 : n < 2147483648 * 3600) :
    -2147483648 < Int.tdiv n 3600 ∧ Int.tdiv n 3600 < 2147483648 := by
  rcases le_or_lt 0 n with h | h
  · rw [Int.tdiv_eq_ediv h (by norm_num)]
    omega
  · rw [show n.tdiv 3600 = -((-n).tdiv 3600) by rw [← Int.neg_tdiv, neg_neg],
      Int.tdiv_eq_ediv (by omega) (by norm_num)]
    omega

theorem tdiv3600_rem_range (n : ℤ) :
    -3600 < n - Int.tdiv n 3600 * 3600 ∧ n - Int.tdiv n 3600 * 3600 < 3600 := by
  rcases le_or_lt 0 n with h | h
  · rw [Int.tdiv_eq_ediv h (by norm_num)]
    omega
  · rw [show n.tdiv 3600 = -((-n).tdiv 3600) by rw [← Int.neg_tdiv, neg_neg],
      Int.tdiv_eq_ediv (by omega) (by norm_num)]
    omega

theorem tdiv60_range (r : ℤ) (h1 : -3600 < r) (h2 : r < 3600) :
    -60 < Int.tdiv r 60 ∧ Int.tdiv r 60 < 60 := by
  rcases le_or_lt 0 r with h | h
  · rw [Int.tdiv_eq_ediv h (by norm_num)]
    omega
  · rw [show r.tdiv 60 = -((-r).tdiv 60) by rw [← Int.neg_tdiv, neg_neg],
      Int.tdiv_eq_ediv (by omega) (by norm_num)]
    omega

/-- `NormalHours` on an integer-valued seconds field below the int32-hours
range computes exact truncating division by 3600 (the float64 division never
rounds across an integer boundary there). -/
theorem normalHours_int (i : Interval) (n : ℤ) (hn : i.Seconds = (n : ℚ))
    (hb1 : -(2147483648 * 3600) < n) (hb2 : n < 2147483648 * 3600) :
    i.NormalHours = Int.tdiv n 3600 := by
  have h53 : (2:ℤ) ^ 53 = 9007199254740992 := by norm_num
  unfold Interval.NormalHours
  rw [hn, show (3600:ℚ) = ((3600:ℕ) : ℚ) by norm_num]
  unfold int32ofFloat
  rw [truncFl_div_int n 3600 (by norm_num) (by norm_num) (by omega) (by omega),
    show ((3600:ℕ) : ℤ) = 3600 by norm_num]
  obtain ⟨hr1, hr2⟩ := tdiv3600_range n hb1 hb2
  rw [if_neg (by omega)]

/-- `NormalMinutes` on the same domain computes the exact truncating
`(seconds - hours*3600) / 60`: every intermediate float64 value is an integer
below `2^53`, hence exact. -/
theorem normalMinutes_int (i : Interval) (n : ℤ) (hn : i.Seconds = (n : ℚ))
    (hb1 : -(2147483648 * 3600) < n) (hb2 : n < 2147483648 * 3600) :
    i.NormalMinutes = Int.tdiv (n - Int.tdiv n 3600 * 3600) 60 := by
  have h53 : (2:ℤ) ^ 53 = 9007199254740992 := by norm_num
  obtain ⟨hH1, hH2⟩ := tdiv3600_range n hb1 hb2
  obtain ⟨hR1, hR2⟩ := tdiv3600_rem_range n
  unfold Interval.NormalMinutes
  rw [normalHours_int i n hn hb1 hb2, hn]
  rw [flRound_int (Int.tdiv n 3600) (by omega) (by omega)]
  rw [show ((Int.tdiv n 3600 : ℤ) : ℚ) * 3600 = ((Int.tdiv n 3600 * 3600 : ℤ) : ℚ) by
    push_cast; ring]
  rw [flRound_int (Int.tdiv n 3600 * 3600) (by omega) (by omega)]
  rw [show ((n : ℤ) : ℚ) - ((Int.tdiv n 3600 * 3600 : ℤ) : ℚ) =
      ((n - Int.tdiv n 3600 * 3600 : ℤ) : ℚ) by push_cast; ring]
  rw [flRound_int (n - Int.tdiv n 3600 * 3600) (by omega) (by omega)]
  rw [show (60:ℚ) = ((60:ℕ) : ℚ) by norm_num]
  unfold int8ofFloat
  rw [truncFl_div_int (n - Int.tdiv n 3600 * 3600) 60 (by norm_num) (by norm_num)
    (by omega) (by omega),
    show ((60:ℕ) : ℤ) = 60 by norm_num]
  obtain ⟨hm1, hm2⟩ := tdiv60_range (n - Int.tdiv n 3600 * 3600) hR1 hR2
  rw [if_neg (by omega)]

/-- Assemble a `Parse`-style outcome equality from a kernel-checkable
Bool-level interval comparison and a flag comparison. -/
theorem outcome_eq {p : Interval × Bool} {i : Interval} {b : Bool}
    (h1 : Interval.beq p.1 i = true) (h2 : p.2 = b) : p = (i, b) :=
  calc p = (p.1, p.2) := rfl
  _ = (i, b) := by rw [Interval.eq_of_beq h1, h2]

/-- C1: `Parse` accepts and computes the spec's worked examples:
`"-1 year -2 mons +3 days -04:05:06"` parses to `{months:-14, days:3,
seconds:-14706}` with no error; the empty string parses to the zero Interval
with no error; `"2 year -34:56:78"` parses to `{months:24, days:0,
seconds:-125838}` with no error. -/
theorem parse_worked_examples :
    Parse "-1 year -2 mons +3 days -04:05:06" = (⟨-14, 3, -14706⟩, false) ∧
      Parse "" = (⟨0, 0, 0⟩, false) ∧
      Parse "2 year -34:56:78" = (⟨24, 0, -125838⟩, false) :=
  ⟨outcome_eq (by with_unfolding_all decide) (by with_unfolding_all decide),
    outcome_eq (by with_unfolding_all decide) (by with_unfolding_all decide),
    outcome_eq (by with_unfolding_all decide) (by with_unfolding_all decide)⟩

/-- C2 (counterexample): the round-trip claim fails as stated: for the
all-fields-non-zero interval `{months:1, days:1, seconds:50}`, `String`
renders the seconds figure with `math.Remainder`, which rounds `50/60` up and
produces the negative seconds display `00:00:0-10`; `Parse` then rejects the
rendered string, so `Parse(String(i))` does not succeed. -/
theorem roundtrip_counterexample :
    Interval.String ⟨1, 1, 50⟩ = "1 mons 1 days 00:00:0-10" ∧
      (Parse (Interval.String ⟨1, 1, 50⟩)).2 = true :=
  ⟨by with_unfolding_all decide, by with_unfolding_all decide⟩

/-- C2 (amended): for a representative set of Intervals with all three fields
non-zero, integer-valued seconds and `|seconds| mod 60 < 30` (so that the
round-to-nearest `math.Remainder` in `String` yields a nonnegative seconds
figure), `Parse(String(i))` succeeds and reproduces `i` exactly. -/
theorem roundtrip_representative :
    Parse (Interval.String ⟨-14, 3, -14706⟩) = (⟨-14, 3, -14706⟩, false) ∧
      Parse (Interval.String ⟨24, 7, 125838⟩) = (⟨24, 7, 125838⟩, false) ∧
      Parse (Interval.String ⟨1, 2, 3⟩) = (⟨1, 2, 3⟩, false) ∧
      Parse (Interval.String ⟨-1, -2, -3⟩) = (⟨-1, -2, -3⟩, false) ∧
      Parse (Interval.String ⟨1000, 1000, 86405⟩) = (⟨1000, 1000, 86405⟩, false) ∧
      Parse (Interval.String ⟨12, 1, 7261⟩) = (⟨12, 1, 7261⟩, false) :=
  ⟨outcome_eq (by with_unfolding_all decide) (by with_unfolding_all decide),
    outcome_eq (by with_unfolding_all decide) (by with_unfolding_all decide),
    outcome_eq (by with_unfolding_all decide) (by with_unfolding_all decide),
    outcome_eq (by with_unfolding_all decide) (by with_unfolding_all decide),
    outcome_eq (by with_unfolding_all decide) (by with_unfolding_all decide),
    outcome_eq (by with_unfolding_all decide) (by with_unfolding_all decide)⟩

/-- C3: evaluation at the failing input.  `"200000000 year"` passes the
32-bit `ParseInt` check on the year token, but `int32(ti) * 12` silently
wraps (`200000000*12 = 2400000000 ≡ -1894967296 (mod 2^32)`): `Parse`
returns the wrapped interval with **no** error, contradicting the claimed
hard parse failure for the year×12 accumulation. -/
theorem parse_year_overflow_wraps :
    Parse "200000000 year" = (⟨-1894967296, 0, 0⟩, false) :=
  outcome_eq (by with_unfolding_all decide) (by with_unfolding_all decide)

/-- C4: `Comparable` literally equals `LessOrEqual || GreaterOrEqual`; it is
false whenever the months and days fields pull strictly in opposite
directions; and at the extreme int32 pair
`a = {months:-2^31, days:2^31-1}`, `b = {months:2^31-1, days:-2^31}` it
returns `false` (total function, no panic is representable). -/
theorem comparable_spec (a b : Interval) :
    Interval.Comparable a b = (Interval.LessOrEqual a b || Interval.GreaterOrEqual a b) ∧
      (a.Months < b.Months → b.Days < a.Days → Interval.Comparable a b = false) ∧
      Interval.Comparable ⟨-2147483648, 2147483647, 0⟩ ⟨2147483647, -2147483648, 0⟩ = false := by
  refine ⟨rfl, ?_, by with_unfolding_all decide⟩
  intro h1 h2
  unfold Interval.Comparable Interval.LessOrEqual Interval.GreaterOrEqual
  have hd : ¬(a.Days ≤ b.Days) := by omega
  have hm : ¬(b.Months ≤ a.Months) := by omega
  simp only [ge_iff_le, decide_eq_false hd, decide_eq_false hm, Bool.and_false,
    Bool.false_and, Bool.false_or, Bool.or_self]

/-- C4 witness: the opposite-pull conjunct discharged at the extreme int32
pair from the claim. -/
theorem comparable_spec_witness :
    Interval.Comparable ⟨-2147483648, 2147483647, 0⟩ ⟨2147483647, -2147483648, 0⟩ = false :=
  (comparable_spec ⟨-2147483648, 2147483647, 0⟩ ⟨2147483647, -2147483648, 0⟩).2.1
    (by norm_num) (by norm_num)

/-- C5 (counterexample): with float64 seconds, `Sub(Add(a,b),b)` can differ
from `a` without any months/days overflow: adding `1` to `2^60` rounds to
`2^60` (the unit is below half an ulp), so subtracting `2^60` back yields
seconds `0`, not `1`. -/
theorem sub_add_counterexample :
    Interval.Sub (Interval.Add ⟨0, 0, 1⟩ ⟨0, 0, ((2 ^ 60 : ℕ) : ℚ)⟩)
        ⟨0, 0, ((2 ^ 60 : ℕ) : ℚ)⟩ = (⟨0, 0, 0⟩ : Interval) ∧
      (⟨0, 0, 0⟩ : Interval) ≠ (⟨0, 0, 1⟩ : Interval) := by
  constructor
  · exact Interval.eq_of_beq (by with_unfolding_all decide)
  · intro h
    exact absurd (congrArg Interval.Seconds h) (by norm_num)

/-- C5 (amended): `Sub(Add(a,b),b) = a` holds whenever `a`'s months and days
are in the int32 range (the int32 wraparound is modular, so the months/days
components always cancel — even if the intermediate sum overflows) and the
seconds additions incur no float64 rounding (`a.Seconds`, and the sum
`a.Seconds + b.Seconds`, exactly representable). -/
theorem sub_add_exact (a b : Interval)
    (hm1 : -2147483648 ≤ a.Months) (hm2 : a.Months ≤ 2147483647)
    (hd1 : -2147483648 ≤ a.Days) (hd2 : a.Days ≤ 2147483647)
    (hsa : flRound a.Seconds = a.Seconds)
    (hsum : flRound (a.Seconds + b.Seconds) = a.Seconds + b.Seconds) :
    Interval.Sub (Interval.Add a b) b = a := by
  have hmonths : wrap32 (wrap32 (a.Months + b.Months) - b.Months) = a.Months := by
    unfold wrap32
    omega
  have hdays : wrap32 (wrap32 (a.Days + b.Days) - b.Days) = a.Days := by
    unfold wrap32
    omega
  have hsec : flRound (flRound (a.Seconds + b.Seconds) - b.Seconds) = a.Seconds := by
    rw [hsum, show a.Seconds + b.Seconds - b.Seconds = a.Seconds by ring, hsa]
  show (⟨wrap32 (wrap32 (a.Months + b.Months) - b.Months),
      wrap32 (wrap32 (a.Days + b.Days) - b.Days),
      flRound (flRound (a.Seconds + b.Seconds) - b.Seconds)⟩ : Interval) = a
  rw [hmonths, hdays, hsec]

/-- C5 witness: the amended statement applied at `a = {1,2,3}`,
`b = {4,5,6}` (all float operations exact). -/
theorem sub_add_exact_witness :
    Interval.Sub (Interval.Add ⟨1, 2, 3⟩ ⟨4, 5, 6⟩) ⟨4, 5, 6⟩ = (⟨1, 2, 3⟩ : Interval) :=
  sub_add_exact ⟨1, 2, 3⟩ ⟨4, 5, 6⟩ (by norm_num) (by norm_num) (by norm_num) (by norm_num)
    (by with_unfolding_all decide) (by with_unfolding_all decide)

/-- C6 (counterexample): `NormalHours` truncates toward zero — the int32
conversion of the float quotient — rather than flooring: at
`seconds = -9000`, `NormalHours = -2` while `floor(-9000/3600) = -3`; and
`NormalMinutes = -30`, not the `floor`-based `30` of the claim. -/
theorem normal_floor_counterexample :
    Interval.NormalHours ⟨0, 0, -9000⟩ = -2 ∧
      Interval.NormalMinutes ⟨0, 0, -9000⟩ = -30 ∧
      ⌊((-9000 : ℚ)) / 3600⌋ = -3 := by
  refine ⟨by with_unfolding_all decide, by with_unfolding_all decide, ?_⟩
  rw [Int.floor_eq_iff]
  constructor <;> norm_num

/-- C6 (amended): `NormalHours` equals `seconds/3600` truncated toward zero
(Go's float→int conversion), and `NormalMinutes` equals
`(seconds - NormalHours*3600)/60` truncated toward zero; for integer-valued
seconds with `|seconds| < 2^31·3600` the float64 divisions introduce no
error, so both equal exact truncating integer division (which agrees with
the claimed `floor` exactly when seconds is nonnegative). -/
theorem normal_trunc (i : Interval) (n : ℤ) (hn : i.Seconds = (n : ℚ))
    (hb1 : -(2147483648 * 3600) < n) (hb2 : n < 2147483648 * 3600) :
    i.NormalHours = Int.tdiv n 3600 ∧
      i.NormalMinutes = Int.tdiv (n - Int.tdiv n 3600 * 3600) 60 :=
  ⟨normalHours_int i n hn hb1 hb2, normalMinutes_int i n hn hb1 hb2⟩

/-- C6 witness: the amended statement applied at `seconds = -9000`
(`NormalHours = -2`, `NormalMinutes = -30`). -/
theorem normal_trunc_witness :
    Interval.NormalHours ⟨0, 0, -9000⟩ = Int.tdiv (-9000) 3600 ∧
      Interval.NormalMinutes ⟨0, 0, -9000⟩ =
        Int.tdiv (-9000 - Int.tdiv (-9000) 3600 * 3600) 60 :=
  normal_trunc ⟨0, 0, -9000⟩ (-9000) (by norm_num) (by norm_num) (by norm_num)

/-- C7 (counterexample): `Parse` uses named return values and returns early
on conversion failure, so the error comes back with the fields parsed so
far: on `"9 year 9999999999 mons"` the months token overflows int32 and the
returned interval already has `months = 9*12 = 108`, not the zero value. -/
theorem parse_partial_counterexample :
    Parse "9 year 9999999999 mons" = (⟨108, 0, 0⟩, true) ∧
      (⟨108, 0, 0⟩ : Interval) ≠ (⟨0, 0, 0⟩ : Interval) := by
  constructor
  · exact outcome_eq (by with_unfolding_all decide) (by with_unfolding_all decide)
  · intro h
    exact absurd (congrArg Interval.Months h) (by norm_num)

/-- C7 (amended): when the whole regex match fails, `Parse` returns the zero
Interval with the error; but when a numeric conversion fails midway, the
error is returned together with the partially filled Interval accumulated so
far (e.g. `months = 108` for `"9 year 9999999999 mons"`). -/
theorem parse_zero_on_match_failure :
    (∀ s : String, matchRe s.data = none → Parse s = (⟨0, 0, 0⟩, true)) ∧
      Parse "9 year 9999999999 mons" = (⟨108, 0, 0⟩, true) := by
  constructor
  · intro s h
    unfold Parse
    rw [h]
  · exact outcome_eq (by with_unfolding_all decide) (by with_unfolding_all decide)

/-- C7 witness: the regex-failure branch discharged at the concrete
non-matching input `"x"`. -/
theorem parse_zero_on_match_failure_witness : Parse "x" = (⟨0, 0, 0⟩, true) :=
  parse_zero_on_match_failure.1 "x" (by with_unfolding_all decide)

/-- C8: evaluation at the failing inputs.  The regex's three optional
single-space separators absorb stray spaces, so a string of 1–3 spaces
(here three) parses as the zero Interval with **no** error, and
`"1 year  04:05:06"` — two consecutive spaces between accepted fields —
also parses successfully, contradicting the claimed rejection (the source
marks this with `//TODO string of 1-3 spaces are parse ok` and a disabled
test expecting `"   "` to fail). -/
theorem parse_spaces_accepted :
    Parse "   " = (⟨0, 0, 0⟩, false) ∧
      Parse "1 year  04:05:06" = (⟨12, 0, 14706⟩, false) :=
  ⟨outcome_eq (by with_unfolding_all decide) (by with_unfolding_all decide),
    outcome_eq (by with_unfolding_all decide) (by with_unfolding_all decide)⟩

/-- C9 (counterexample): `Duration` computes in int64 and wraps: at
`months = 2^31-1`, `daysInMonth = 255`, `secondsInDay = 2^32-1` the exact
value `(M*dim+D)*sid*1e9 + round(s*1e9)` exceeds `2^63` and the code
returns the wrapped value instead, refuting the unconditional equality. -/
theorem duration_overflow_counterexample :
    Interval.Duration ⟨2147483647, 0, 0⟩ 255 4294967295 = -1064767904849906176 ∧
      (2147483647 * 255 + 0) * 4294967295 * 1000000000 +
        goRound (flRound (0 * 1000000000)) ≠ (-1064767904849906176 : ℤ) :=
  ⟨by with_unfolding_all decide, by with_unfolding_all decide⟩

/-- C9 (amended): barring int64 overflow of the day/month product term, of
the rounded nanosecond seconds term, and of their sum, `Duration` equals
`(months*daysInMonth + days)*secondsInDay` seconds (as `*10^9`
nanoseconds) plus the float64 product `seconds*1e9` rounded half away from
zero to whole nanoseconds. -/
theorem duration_exact (i : Interval) (dim sid : ℕ)
    (hm1 : -2147483648 ≤ i.Months) (hm2 : i.Months ≤ 2147483647)
    (hd1 : -2147483648 ≤ i.Days) (hd2 : i.Days ≤ 2147483647)
    (hdim : dim ≤ 255) (_hsid : sid ≤ 4294967295)
    (hp1 : -(9223372036854775808) < (i.Months * dim + i.Days) * sid * 1000000000)
    (hp2 : (i.Months * dim + i.Days) * sid * 1000000000 < 9223372036854775808)
    (hr1 : -(9223372036854775808) ≤ goRound (flRound (i.Seconds * 1000000000)))
    (hr2 : goRound (flRound (i.Seconds * 1000000000)) ≤ 9223372036854775807)
    (hs1 : -(9223372036854775808) ≤ (i.Months * dim + i.Days) * sid * 1000000000 +
      goRound (flRound (i.Seconds * 1000000000)))
    (hs2 : (i.Months * dim + i.Days) * sid * 1000000000 +
      goRound (flRound (i.Seconds * 1000000000)) ≤ 9223372036854775807) :
    Interval.Duration i dim sid =
      (i.Months * dim + i.Days) * sid * 1000000000 +
        goRound (flRound (i.Seconds * 1000000000)) := by
  have hdz : (0:ℤ) ≤ (dim:ℤ) := Int.ofNat_nonneg _
  have hdz2 : (dim:ℤ) ≤ 255 := by exact_mod_cast hdim
  have ht1u : i.Months * (dim:ℤ) ≤ 2147483647 * 255 := by nlinarith
  have ht1l : -(2147483648 * 255) ≤ i.Months * (dim:ℤ) := by nlinarith
  unfold Interval.Duration
  rw [wrap64_eq_self (i.Months * dim) (by omega) (by omega)]
  rw [wrap64_eq_self (i.Months * dim + i.Days) (by omega) (by omega)]
  rw [wrap64_eq_self ((i.Months * dim + i.Days) * sid) (by omega) (by omega)]
  rw [wrap64_eq_self ((i.Months * dim + i.Days) * sid * 1000000000) (by omega) (by omega)]
  rw [wrap64_eq_self (goRound (flRound (i.Seconds * 1000000000))) (by omega) (by omega)]
  rw [wrap64_eq_self _ (by omega) (by omega)]

/-- C9 witness: the amended statement applied at the spec's worked example
`Duration({0,10,1}, 30, 86400) = 864001` seconds (`864001·10^9` ns). -/
theorem duration_exact_witness :
    Interval.Duration ⟨0, 10, 1⟩ 30 86400 = 864001000000000 := by
  rw [duration_exact ⟨0, 10, 1⟩ 30 86400 (by norm_num) (by norm_num) (by norm_num)
    (by norm_num) (by norm_num) (by norm_num)
    (by with_unfolding_all decide) (by with_unfolding_all decide)
    (by with_unfolding_all decide) (by with_unfolding_all decide)
    (by with_unfolding_all decide) (by with_unfolding_all decide)]
  with_unfolding_all decide

/-- C10: comparability is symmetric — `Comparable(a,b) = Comparable(b,a)`
for all Intervals, since field-wise `≤` in one order is field-wise `≥` in
the other and `||` commutes. -/
theorem comparable_symm (a b : Interval) :
    Interval.Comparable a b = Interval.Comparable b a := by
  unfold Interval.Comparable Interval.LessOrEqual Interval.GreaterOrEqual
  simp only [ge_iff_le]
  rw [Bool.or_comm]

end Timehelper
